import Mathlib

/-!
Shallow embedding of the Obsync server's synchronization core
(`apps/server/src/index.ts`) over the relational state declared in
`apps/server/src/migrations.sql`.

State is modelled as lists of rows mirroring the tables `op_log`, `blobs`,
`blob_chunks` and `sync_cursors`, together with the BIGSERIAL counter that
backs `op_log.seq` and the chunk object store (`blobStore.ts`, a map from
storage keys to byte contents).  Each HTTP handler becomes a pure function
from the parsed request and the current state to a result and the next
state.  Authentication, vault-ownership checks, the `devices` table touch
and the realtime publish side channel are orthogonal to the claims and are
not part of the state; timestamps (`now()`) are passed in as explicit
natural-number clock values.  The SHA-256 digest used by the chunk
integrity gate is an opaque parameter `digest : List Nat → String`, since
the claims depend only on comparing the recomputed digest with the declared
one.  Bytes are `List Nat`; a request's `cipherTextBase64` field is carried
as its decoded byte list.
-/

namespace Obsync

/-- Operation payload: opaque to the server except that the push handler
reads `payload.blobHash` and `payload.index` from `blob_ref` ops.  The
`extra` field stands for the rest of the schemaless JSON value. -/
structure Payload where
  blobHash : Option String
  index : Option Nat
  extra : Nat
deriving DecidableEq

/-- Row of `op_log` (migrations.sql): seq BIGSERIAL PRIMARY KEY, vault_id,
file_id, op_type, payload, idempotency_key UNIQUE, author_device_id. -/
structure OpRow where
  seq : Nat
  vaultId : String
  fileId : Option String
  opType : String
  payload : Payload
  idempotencyKey : String
  authorDeviceId : Option String
deriving DecidableEq

/-- Row of `blobs`: hash PRIMARY KEY, size, chunk_count, cipher_alg,
committed_at (nullable timestamp, modelled as `Option Nat`). -/
structure BlobRow where
  hash : String
  size : Nat
  chunkCount : Nat
  cipherAlg : String
  committedAt : Option Nat
deriving DecidableEq

/-- Row of `blob_chunks`: PRIMARY KEY (blob_hash, idx). -/
structure ChunkRow where
  blobHash : String
  idx : Nat
  chunkHash : String
  size : Nat
  storageKey : String
deriving DecidableEq

/-- Row of `sync_cursors`: PRIMARY KEY (device_id, vault_id). -/
structure CursorRow where
  deviceId : String
  vaultId : String
  lastAppliedSeq : Nat
deriving DecidableEq

/-- The server state the claims range over: the relational tables plus the
BIGSERIAL allocator for `op_log.seq` and the chunk object store. -/
structure ServerState where
  nextSeq : Nat
  opLog : List OpRow
  blobs : List BlobRow
  chunks : List ChunkRow
  cursors : List CursorRow
  store : List (String × List Nat)
deriving DecidableEq

/-- Fresh database: BIGSERIAL counters start at 1, every table empty. -/
def initState : ServerState :=
  { nextSeq := 1, opLog := [], blobs := [], chunks := [], cursors := [], store := [] }

/-- Does a row with this idempotency key exist in the log? -/
def containsKey (log : List OpRow) (key : String) : Bool :=
  log.any (fun r => r.idempotencyKey == key)

/-- SELECT seq FROM op_log WHERE idempotency_key = $1 (index.ts line 347),
followed by `Number(existing?.seq ?? 0)`: 0 when no row matches. -/
def lookupSeqByKey (log : List OpRow) (key : String) : Nat :=
  match log.find? (fun r => r.idempotencyKey == key) with
  | some r => r.seq
  | none => 0

/-- An op of a parsed push batch (fields the handler reads from a
`SyncOpSchema` value: idempotencyKey, deviceId, fileId, opType, payload). -/
structure PushOp where
  idempotencyKey : String
  deviceId : String
  fileId : Option String
  opType : String
  payload : Payload
deriving DecidableEq

/-- A parsed `SyncBatchPushRequestSchema` body: deviceId, cursor
(nonnegative integer, default 0) and the batch of ops. -/
structure PushRequest where
  deviceId : String
  cursor : Nat
  ops : List PushOp
deriving DecidableEq

/-- A missing-chunk diagnostic entry of the push response. -/
structure MissingChunk where
  blobHash : String
  index : Nat
deriving DecidableEq

/-- The push response body (index.ts lines 394-399). -/
structure PushResponse where
  acknowledgedSeq : Nat
  appliedCount : Nat
  missingChunks : List MissingChunk
  rebaseRequired : Bool
deriving DecidableEq

/-- The op_log row built from a push op when its insert is not a
conflict: the columns of the INSERT at index.ts lines 337-343, with the
BIGSERIAL assigning the given seq value. -/
def newOpRow (seqVal : Nat) (vaultId : String) (op : PushOp) : OpRow :=
  { seq := seqVal, vaultId := vaultId, fileId := op.fileId,
    opType := op.opType, payload := op.payload,
    idempotencyKey := op.idempotencyKey,
    authorDeviceId := some op.deviceId }

/-- INSERT INTO op_log(...) VALUES(...) ON CONFLICT (idempotency_key)
DO NOTHING RETURNING seq (index.ts lines 337-343).  On conflict no row is
inserted and no seq is returned; the BIGSERIAL value is consumed by the
attempted insert either way, as in PostgreSQL. -/
def insertOpIgnoreConflict (s : ServerState) (vaultId : String) (op : PushOp) :
    Option Nat × ServerState :=
  if containsKey s.opLog op.idempotencyKey then
    (none, { s with nextSeq := s.nextSeq + 1 })
  else
    (some s.nextSeq,
     { s with
        nextSeq := s.nextSeq + 1,
        opLog := s.opLog ++ [newOpRow s.nextSeq vaultId op] })

/-- Missing-chunk diagnostic for a `blob_ref` op (index.ts lines 364-376):
when the op carries a nonempty `payload.blobHash` whose blob row is absent
or not committed, `{blobHash, index}` is appended to `missingChunks`. -/
def blobRefMissing (s : ServerState) (op : PushOp) (missing : List MissingChunk) :
    List MissingChunk :=
  if op.opType == "blob_ref" then
    let blobHash := op.payload.blobHash.getD ""
    if blobHash == "" then missing
    else
      match s.blobs.find? (fun b => b.hash == blobHash) with
      | some b => if b.committedAt.isSome then missing
                  else missing ++ [{ blobHash := blobHash, index := op.payload.index.getD 0 }]
      | none => missing ++ [{ blobHash := blobHash, index := op.payload.index.getD 0 }]
  else missing

/-- Accumulated outcome of the push handler's loop over the batch. -/
structure PushOutcome where
  state : ServerState
  acknowledgedSeq : Nat
  appliedCount : Nat
  missingChunks : List MissingChunk
deriving DecidableEq

/-- The push handler's `for (const op of requestBody.ops)` loop (index.ts
lines 336-379): insert with ON CONFLICT DO NOTHING; a returned truthy seq
counts as applied, otherwise the existing seq is looked up by idempotency
key; `blob_ref` ops may add a missing-chunk diagnostic; `acknowledgedSeq`
accumulates the running maximum. -/
def processOps (vaultId : String) (s : ServerState) (ack applied : Nat)
    (missing : List MissingChunk) : List PushOp → PushOutcome
  | [] => { state := s, acknowledgedSeq := ack, appliedCount := applied,
            missingChunks := missing }
  | op :: rest =>
    let ins := insertOpIgnoreConflict s vaultId op
    let seq0 := ins.1.getD 0
    let seqNum := if seq0 == 0 then lookupSeqByKey ins.2.opLog op.idempotencyKey else seq0
    let applied1 := if seq0 == 0 then applied else applied + 1
    let missing1 := blobRefMissing ins.2 op missing
    processOps vaultId ins.2 (max ack seqNum) applied1 missing1 rest

/-- INSERT INTO sync_cursors ... ON CONFLICT (device_id, vault_id)
DO UPDATE SET last_applied_seq = EXCLUDED.last_applied_seq (index.ts lines
381-387): the push path overwrites the stored cursor. -/
def upsertCursorSet (cursors : List CursorRow) (deviceId vaultId : String)
    (seq : Nat) : List CursorRow :=
  if cursors.any (fun c => c.deviceId == deviceId && c.vaultId == vaultId) then
    cursors.map (fun c =>
      if c.deviceId == deviceId && c.vaultId == vaultId then
        { c with lastAppliedSeq := seq } else c)
  else cursors ++ [{ deviceId := deviceId, vaultId := vaultId, lastAppliedSeq := seq }]

/-- INSERT INTO sync_cursors ... DO UPDATE SET last_applied_seq =
GREATEST(sync_cursors.last_applied_seq, EXCLUDED.last_applied_seq)
(index.ts lines 436-441): the pull path takes the maximum. -/
def upsertCursorMax (cursors : List CursorRow) (deviceId vaultId : String)
    (seq : Nat) : List CursorRow :=
  if cursors.any (fun c => c.deviceId == deviceId && c.vaultId == vaultId) then
    cursors.map (fun c =>
      if c.deviceId == deviceId && c.vaultId == vaultId then
        { c with lastAppliedSeq := max c.lastAppliedSeq seq } else c)
  else cursors ++ [{ deviceId := deviceId, vaultId := vaultId, lastAppliedSeq := seq }]

/-- POST /v1/vaults/:vaultId/sync/push (index.ts lines 311-400), after
authentication, vault-access check and schema validation: runs the batch
loop, then upserts the device's cursor to the final acknowledgedSeq. -/
def processPush (s : ServerState) (vaultId : String) (req : PushRequest) :
    PushResponse × ServerState :=
  let o := processOps vaultId s req.cursor 0 [] req.ops
  ({ acknowledgedSeq := o.acknowledgedSeq, appliedCount := o.appliedCount,
     missingChunks := o.missingChunks, rebaseRequired := false },
   { o.state with
      cursors := upsertCursorSet o.state.cursors req.deviceId vaultId o.acknowledgedSeq })

/-- Ordering relation used to model `ORDER BY seq ASC`. -/
def seqLE (a b : OpRow) : Prop := a.seq ≤ b.seq

instance : DecidableRel seqLE := fun a b => inferInstanceAs (Decidable (a.seq ≤ b.seq))

instance : IsTotal OpRow seqLE := ⟨fun a b => Nat.le_total a.seq b.seq⟩

instance : IsTrans OpRow seqLE := ⟨fun _ _ _ hab hbc => Nat.le_trans hab hbc⟩

/-- WHERE vault_id = $1 AND seq > $2 over `op_log`. -/
def vaultOpsAfter (log : List OpRow) (vaultId : String) (since : Nat) : List OpRow :=
  log.filter (fun r => r.vaultId == vaultId && since < r.seq)

/-- SELECT ... FROM op_log WHERE vault_id = $1 AND seq > $2 ORDER BY seq ASC
LIMIT $3 (index.ts lines 425-431). -/
def readOpsSince (s : ServerState) (vaultId : String) (since : Nat) (limit : Nat) :
    List OpRow :=
  (List.insertionSort seqLE (vaultOpsAfter s.opLog vaultId since)).take limit

/-- The pull response body. -/
structure PullResponse where
  watermark : Nat
  ops : List OpRow
deriving DecidableEq

/-- GET /v1/vaults/:vaultId/sync/pull (index.ts lines 402-461), after
authentication and access check: `limit = min(query.limit ?? 200, 1000)`,
read ops, compute the watermark, and when a deviceId is supplied upsert the
cursor with GREATEST. -/
def processPull (s : ServerState) (vaultId : String) (since : Nat)
    (limitQ : Option Nat) (deviceIdQ : Option String) : PullResponse × ServerState :=
  let limit := min (limitQ.getD 200) 1000
  let ops := readOpsSince s vaultId since limit
  let watermark := match ops.getLast? with
    | some r => r.seq
    | none => since
  let s1 := match deviceIdQ with
    | some d => { s with cursors := upsertCursorMax s.cursors d vaultId watermark }
    | none => s
  ({ watermark := watermark, ops := ops }, s1)

/-- The first frame a realtime subscriber receives. -/
structure BacklogEnvelope where
  events : List OpRow
deriving DecidableEq

/-- The backlog query and envelope the websocket handler sends as its first
message once the subscription is admitted (index.ts lines 845-873):
SELECT ... WHERE vault_id = $1 AND seq > $2 ORDER BY seq ASC LIMIT 500. -/
def realtimeBacklog (s : ServerState) (vaultId : String) (since : Nat) :
    BacklogEnvelope :=
  { events := (List.insertionSort seqLE (vaultOpsAfter s.opLog vaultId since)).take 500 }

/-- A parsed `BlobInitRequestSchema` body. -/
structure BlobInitBody where
  hash : String
  size : Nat
  chunkCount : Nat
  cipherAlg : String
deriving DecidableEq

/-- Zod validation of `BlobInitRequestSchema`: hash at least 32 characters,
size and chunkCount positive. -/
def blobInitWf (b : BlobInitBody) : Bool :=
  32 ≤ b.hash.length && 0 < b.size && 0 < b.chunkCount

/-- Result of POST /v1/vaults/:vaultId/blobs/init. -/
inductive BlobInitResult
  | invalidPayload
  | created (hash : String) (missingIndices : List Nat)
deriving DecidableEq

/-- POST /v1/vaults/:vaultId/blobs/init (index.ts lines 463-509): upsert the
manifest (ON CONFLICT DO NOTHING) and report the declared indices that have
no chunk row yet. -/
def processBlobInit (s : ServerState) (body : BlobInitBody) :
    BlobInitResult × ServerState :=
  if !(blobInitWf body) then (.invalidPayload, s)
  else
    let blobs1 :=
      if s.blobs.any (fun b => b.hash == body.hash) then s.blobs
      else s.blobs ++ [{ hash := body.hash, size := body.size,
                         chunkCount := body.chunkCount,
                         cipherAlg := body.cipherAlg, committedAt := none }]
    let missing := (List.range body.chunkCount).filter
      (fun i => !(s.chunks.any (fun c => c.blobHash == body.hash && c.idx == i)))
    (.created body.hash missing, { s with blobs := blobs1 })

/-- Body of PUT .../chunks/:index, with `cipherText` the decoded bytes of
the request's `cipherTextBase64` field. -/
structure ChunkPutBody where
  chunkHash : String
  size : Nat
  cipherText : List Nat
deriving DecidableEq

/-- The handler's JavaScript falsiness check (index.ts line 531):
`!body?.chunkHash || !body?.size || !body?.cipherTextBase64`; an empty
string and the number 0 are falsy. -/
def chunkBodyWf (b : ChunkPutBody) : Bool :=
  !(b.chunkHash == "") && !(b.size == 0) && !(b.cipherText == [])

/-- Result of PUT .../chunks/:index. -/
inductive PutChunkResult
  | invalidPayload
  | hashMismatch
  | persisted (blobHash : String) (index : Nat)
deriving DecidableEq

/-- Storage key produced by the blob store for a chunk write
(`blobs/{hash}/{index}.bin`). -/
def storageKeyFor (blobHash : String) (index : Nat) : String :=
  "blobs/" ++ blobHash ++ "/" ++ toString index ++ ".bin"

/-- Write a chunk object, overwriting any object at the same key. -/
def storeWrite (store : List (String × List Nat)) (key : String) (raw : List Nat) :
    List (String × List Nat) :=
  if store.any (fun e => e.1 == key) then
    store.map (fun e => if e.1 == key then (e.1, raw) else e)
  else store ++ [(key, raw)]

/-- Read a chunk object back by storage key; empty for an absent key. -/
def storeRead (store : List (String × List Nat)) (key : String) : List Nat :=
  match store.find? (fun e => e.1 == key) with
  | some e => e.2
  | none => []

/-- INSERT INTO blob_chunks ... ON CONFLICT(blob_hash, idx) DO UPDATE SET
chunk_hash, size, storage_key (index.ts lines 551-557): replace on
conflict. -/
def upsertChunk (chunks : List ChunkRow) (blobHash : String) (index : Nat)
    (chunkHash : String) (size : Nat) (key : String) : List ChunkRow :=
  if chunks.any (fun c => c.blobHash == blobHash && c.idx == index) then
    chunks.map (fun c =>
      if c.blobHash == blobHash && c.idx == index then
        { c with chunkHash := chunkHash, size := size, storageKey := key } else c)
  else chunks ++ [{ blobHash := blobHash, idx := index, chunkHash := chunkHash,
                    size := size, storageKey := key }]

/-- PUT /v1/vaults/:vaultId/blobs/:blobHash/chunks/:index (index.ts lines
511-564), after authentication and access check: falsiness validation, then
the integrity gate comparing the recomputed digest of the decoded bytes
with the declared chunkHash, then the object-store write and the chunk-row
upsert.  The declared `size` field is stored as-is; it is never compared
with the byte length of the decoded ciphertext. -/
def processPutChunk (digest : List Nat → String) (s : ServerState)
    (blobHash : String) (index : Nat) (body : ChunkPutBody) :
    PutChunkResult × ServerState :=
  if !(chunkBodyWf body) then (.invalidPayload, s)
  else if !(digest body.cipherText == body.chunkHash) then (.hashMismatch, s)
  else
    let key := storageKeyFor blobHash index
    (.persisted blobHash index,
     { s with
        chunks := upsertChunk s.chunks blobHash index body.chunkHash body.size key,
        store := storeWrite s.store key body.cipherText })

/-- A parsed `BlobCommitRequestSchema` body. -/
structure BlobCommitBody where
  hash : String
  expectedChunkCount : Nat
  expectedSize : Nat
deriving DecidableEq

/-- Zod validation of `BlobCommitRequestSchema`: hash at least 32
characters, both expectations positive. -/
def commitBodyWf (b : BlobCommitBody) : Bool :=
  32 ≤ b.hash.length && 0 < b.expectedChunkCount && 0 < b.expectedSize

/-- SELECT count(*), coalesce(sum(size), 0) FROM blob_chunks WHERE
blob_hash = $1 (index.ts lines 669-675): the count of chunk rows and the
sum of their recorded sizes. -/
def countChunks (s : ServerState) (blobHash : String) : Nat × Nat :=
  let rows := s.chunks.filter (fun c => c.blobHash == blobHash)
  (rows.length, (rows.map (fun c => c.size)).sum)

/-- Result of POST .../commit. -/
inductive CommitResult
  | invalidPayload
  | incomplete (currentCount currentSize : Nat)
  | committed (hash : String)
deriving DecidableEq

/-- POST /v1/vaults/:vaultId/blobs/:blobHash/commit (index.ts lines
650-696), after authentication and access check: schema validation plus
`parsed.data.hash !== blobHash` gives 400; `currentCount <
expectedChunkCount || currentSize < expectedSize` gives 409
BLOB_INCOMPLETE; otherwise UPDATE blobs SET committed_at = now(). -/
def processCommit (s : ServerState) (now : Nat) (blobHash : String)
    (body : BlobCommitBody) : CommitResult × ServerState :=
  if !(commitBodyWf body) || !(body.hash == blobHash) then (.invalidPayload, s)
  else
    let c := countChunks s blobHash
    if c.1 < body.expectedChunkCount || c.2 < body.expectedSize then
      (.incomplete c.1 c.2, s)
    else
      (.committed blobHash,
       { s with blobs := s.blobs.map (fun b =>
           if b.hash == blobHash then { b with committedAt := some now } else b) })

/-- Ordering relation used to model `ORDER BY idx ASC` over chunk rows. -/
def idxLE (a b : ChunkRow) : Prop := a.idx ≤ b.idx

instance : DecidableRel idxLE := fun a b => inferInstanceAs (Decidable (a.idx ≤ b.idx))

instance : IsTotal ChunkRow idxLE := ⟨fun a b => Nat.le_total a.idx b.idx⟩

instance : IsTrans ChunkRow idxLE := ⟨fun _ _ _ hab hbc => Nat.le_trans hab hbc⟩

/-- Result of GET /v1/vaults/:vaultId/blobs/:blobHash. -/
inductive ManifestResult
  | notFound
  | manifest (hash : String) (size : Nat) (chunkCount : Nat) (cipherAlg : String)
      (chunks : List ChunkRow)
deriving DecidableEq

/-- GET /v1/vaults/:vaultId/blobs/:blobHash (index.ts lines 566-613): 404
BLOB_NOT_FOUND when the blob row is absent or `committed_at` is null;
otherwise the manifest with its chunk list ordered by idx. -/
def processGetBlob (s : ServerState) (blobHash : String) : ManifestResult :=
  match s.blobs.find? (fun b => b.hash == blobHash) with
  | none => .notFound
  | some b =>
    match b.committedAt with
    | none => .notFound
    | some _ =>
      .manifest b.hash b.size b.chunkCount b.cipherAlg
        (List.insertionSort idxLE (s.chunks.filter (fun c => c.blobHash == blobHash)))

/-- Result of GET .../chunks/:index. -/
inductive ChunkGetResult
  | notFound
  | chunk (blobHash : String) (index : Nat) (chunkHash : String) (size : Nat)
      (cipherText : List Nat)
deriving DecidableEq

/-- GET /v1/vaults/:vaultId/blobs/:blobHash/chunks/:index (index.ts lines
615-648): look up the chunk row by (blob_hash, idx); 404 CHUNK_NOT_FOUND
only when it is absent, otherwise serve the stored bytes.  The handler
never consults the owning blob's `committed_at`. -/
def processGetChunk (s : ServerState) (blobHash : String) (index : Nat) :
    ChunkGetResult :=
  match s.chunks.find? (fun c => c.blobHash == blobHash && c.idx == index) with
  | none => .notFound
  | some c => .chunk blobHash index c.chunkHash c.size (storeRead s.store c.storageKey)

/-- Stored cursor value for a device and vault; 0 when no row exists (the
column's DEFAULT). -/
def cursorSeq (cursors : List CursorRow) (deviceId vaultId : String) : Nat :=
  match cursors.find? (fun c => c.deviceId == deviceId && c.vaultId == vaultId) with
  | some c => c.lastAppliedSeq
  | none => 0

/-- One state-changing request handled by the server. -/
inductive Step (digest : List Nat → String) : ServerState → ServerState → Prop
  | push (s : ServerState) (vaultId : String) (req : PushRequest) :
      Step digest s (processPush s vaultId req).2
  | pull (s : ServerState) (vaultId : String) (since : Nat)
      (limitQ : Option Nat) (deviceIdQ : Option String) :
      Step digest s (processPull s vaultId since limitQ deviceIdQ).2
  | blobInit (s : ServerState) (body : BlobInitBody) :
      Step digest s (processBlobInit s body).2
  | putChunk (s : ServerState) (blobHash : String) (index : Nat) (body : ChunkPutBody) :
      Step digest s (processPutChunk digest s blobHash index body).2
  | commit (s : ServerState) (now : Nat) (blobHash : String) (body : BlobCommitBody) :
      Step digest s (processCommit s now blobHash body).2

/-- States reachable from a fresh database by any sequence of requests. -/
def Reachable (digest : List Nat → String) (s : ServerState) : Prop :=
  Relation.ReflTransGen (Step digest) initState s

/-- Log well-formedness: rows are in strictly increasing seq order and
every seq is below the BIGSERIAL counter. -/
def LogOrdered (s : ServerState) : Prop :=
  s.opLog.Pairwise (fun a b => a.seq < b.seq) ∧ ∀ r ∈ s.opLog, r.seq < s.nextSeq

/-! Concrete instances used to instantiate the theorems below. -/

/-- A concrete digest function used to instantiate the digest parameter:
the decimal length of the byte list. -/
def digest0 : List Nat → String := fun l => toString l.length

/-- A concrete device id (the spec's example device `D`). -/
def devD : String := "11111111-1111-4111-8111-111111111111"

/-- An empty opaque payload. -/
def payload0 : Payload := { blobHash := none, index := none, extra := 0 }

/-- A markdown-update push op with the given idempotency key. -/
def opK (k : String) : PushOp :=
  { idempotencyKey := k, deviceId := devD, fileId := none,
    opType := "md_update", payload := payload0 }

/-- A concrete 64-character blob hash. -/
def h64 : String :=
  "aaaaaaaaaaaaaaaaaaaaaaaaaaaaaaaaaaaaaaaaaaaaaaaaaaaaaaaaaaaaaaaa"

/-- A state holding one uncommitted blob `h64` (declared 1 chunk, 3 bytes)
whose single chunk has been uploaded. -/
def oneChunkState : ServerState :=
  { nextSeq := 1, opLog := [], cursors := [],
    store := [(storageKeyFor h64 0, [1, 2, 3])],
    blobs := [{ hash := h64, size := 3, chunkCount := 1,
                cipherAlg := "AES-256-GCM", committedAt := none }],
    chunks := [{ blobHash := h64, idx := 0, chunkHash := "3", size := 3,
                 storageKey := storageKeyFor h64 0 }] }

/-- Commit body matching `oneChunkState`'s uploaded chunk. -/
def commitBody1 : BlobCommitBody :=
  { hash := h64, expectedChunkCount := 1, expectedSize := 3 }

/-- The state after committing `oneChunkState` at time 1. -/
def committedState : ServerState := (processCommit oneChunkState 1 h64 commitBody1).2

/-- A state holding an uncommitted blob `h64` declared with 2 chunks and
10 bytes of which only chunk 0 (5 bytes) has been uploaded. -/
def halfBlobState : ServerState :=
  { nextSeq := 1, opLog := [], cursors := [],
    store := [(storageKeyFor h64 0, [9, 9, 9, 9, 9])],
    blobs := [{ hash := h64, size := 10, chunkCount := 2,
                cipherAlg := "AES-256-GCM", committedAt := none }],
    chunks := [{ blobHash := h64, idx := 0, chunkHash := "5", size := 5,
                 storageKey := storageKeyFor h64 0 }] }

/-- Commit body declaring both chunks of `halfBlobState`. -/
def commitBody2 : BlobCommitBody :=
  { hash := h64, expectedChunkCount := 2, expectedSize := 10 }

/-- A state holding the uncommitted blob `h64` with no chunks uploaded. -/
def emptyBlobState : ServerState :=
  { nextSeq := 1, opLog := [], cursors := [], store := [],
    blobs := [{ hash := h64, size := 10, chunkCount := 1,
                cipherAlg := "AES-256-GCM", committedAt := none }],
    chunks := [] }

/-- A put-chunk body whose declared size (10) exceeds the length of its
decoded ciphertext (3 bytes); its chunkHash matches `digest0`. -/
def undersizedBody : ChunkPutBody :=
  { chunkHash := "3", size := 10, cipherText := [1, 2, 3] }

/-- The state after persisting `undersizedBody` into `emptyBlobState`. -/
def undersizedAfter : ServerState :=
  (processPutChunk digest0 emptyBlobState h64 0 undersizedBody).2

/-- A put-chunk body whose declared chunkHash does not match the `digest0`
digest of its bytes. -/
def mismatchBody : ChunkPutBody :=
  { chunkHash := "0123456789abcdef0123456789abcdef0123456789abcdef0123456789abcdef",
    size := 3, cipherText := [1, 2, 3] }

/-- Four single-op pushes alternating between vaults "B" and "A": the log
interleaves the two vaults on the shared BIGSERIAL counter. -/
def interleavedState : ServerState :=
  (processPush
    (processPush
      (processPush
        (processPush initState "B"
          { deviceId := devD, cursor := 0, ops := [opK "op-key-b001"] }).2
        "A" { deviceId := devD, cursor := 0, ops := [opK "op-key-a001"] }).2
      "B" { deviceId := devD, cursor := 0, ops := [opK "op-key-b002"] }).2
    "A" { deviceId := devD, cursor := 0, ops := [opK "op-key-a002"] }).2

/-- A single-op push request to vault "A". -/
def onePushReq : PushRequest :=
  { deviceId := devD, cursor := 0, ops := [opK "op-key-0001"] }

/-- The state after one push to vault "A" from a fresh database. -/
def onePushState : ServerState := (processPush initState "A" onePushReq).2

/-- A two-op push by device `devD` to vault "V". -/
def twoOpReq : PushRequest :=
  { deviceId := devD, cursor := 0, ops := [opK "op-key-0001", opK "op-key-0002"] }

/-- The state after `twoOpReq`: the cursor of (devD, "V") stands at 2. -/
def twoOpState : ServerState := (processPush initState "V" twoOpReq).2

/-- A replay of only the first op of `twoOpReq`, with the same cursor 0. -/
def staleReplayReq : PushRequest :=
  { deviceId := devD, cursor := 0, ops := [opK "op-key-0001"] }

/-- The state after the stale replay: the cursor of (devD, "V") has been
overwritten down to 1. -/
def staleReplayState : ServerState := (processPush twoOpState "V" staleReplayReq).2

/-! Frame lemmas: which parts of the state each handler can touch. -/

lemma processCommit_frame (s : ServerState) (now : Nat) (blobHash : String)
    (body : BlobCommitBody) :
    (processCommit s now blobHash body).2.opLog = s.opLog ∧
    (processCommit s now blobHash body).2.chunks = s.chunks ∧
    (processCommit s now blobHash body).2.cursors = s.cursors ∧
    (processCommit s now blobHash body).2.store = s.store ∧
    (processCommit s now blobHash body).2.nextSeq = s.nextSeq := by
  unfold processCommit
  split
  · exact ⟨rfl, rfl, rfl, rfl, rfl⟩
  · dsimp only
    split
    · exact ⟨rfl, rfl, rfl, rfl, rfl⟩
    · exact ⟨rfl, rfl, rfl, rfl, rfl⟩

lemma processPutChunk_frame (digest : List Nat → String) (s : ServerState)
    (blobHash : String) (index : Nat) (body : ChunkPutBody) :
    (processPutChunk digest s blobHash index body).2.opLog = s.opLog ∧
    (processPutChunk digest s blobHash index body).2.blobs = s.blobs ∧
    (processPutChunk digest s blobHash index body).2.cursors = s.cursors ∧
    (processPutChunk digest s blobHash index body).2.nextSeq = s.nextSeq := by
  unfold processPutChunk
  split
  · exact ⟨rfl, rfl, rfl, rfl⟩
  · split
    · exact ⟨rfl, rfl, rfl, rfl⟩
    · exact ⟨rfl, rfl, rfl, rfl⟩

lemma processBlobInit_frame (s : ServerState) (body : BlobInitBody) :
    (processBlobInit s body).2.opLog = s.opLog ∧
    (processBlobInit s body).2.chunks = s.chunks ∧
    (processBlobInit s body).2.cursors = s.cursors ∧
    (processBlobInit s body).2.store = s.store ∧
    (processBlobInit s body).2.nextSeq = s.nextSeq := by
  unfold processBlobInit
  split
  · exact ⟨rfl, rfl, rfl, rfl, rfl⟩
  · exact ⟨rfl, rfl, rfl, rfl, rfl⟩

lemma processPull_frame (s : ServerState) (vaultId : String) (since : Nat)
    (limitQ : Option Nat) (deviceIdQ : Option String) :
    (processPull s vaultId since limitQ deviceIdQ).2.opLog = s.opLog ∧
    (processPull s vaultId since limitQ deviceIdQ).2.blobs = s.blobs ∧
    (processPull s vaultId since limitQ deviceIdQ).2.chunks = s.chunks ∧
    (processPull s vaultId since limitQ deviceIdQ).2.store = s.store ∧
    (processPull s vaultId since limitQ deviceIdQ).2.nextSeq = s.nextSeq := by
  unfold processPull
  dsimp only
  split
  · exact ⟨rfl, rfl, rfl, rfl, rfl⟩
  · exact ⟨rfl, rfl, rfl, rfl, rfl⟩

/-! Case lemmas for the blob commit gate. -/

lemma processCommit_incomplete (s : ServerState) (now : Nat) (blobHash : String)
    (body : BlobCommitBody) (hwf : commitBodyWf body = true) (hh : body.hash = blobHash)
    (hgate : (countChunks s blobHash).1 < body.expectedChunkCount ∨
             (countChunks s blobHash).2 < body.expectedSize) :
    processCommit s now blobHash body =
      (.incomplete (countChunks s blobHash).1 (countChunks s blobHash).2, s) := by
  subst hh
  unfold processCommit
  rw [if_neg (by simp [hwf]), if_pos (by simpa using hgate)]

lemma processCommit_success (s : ServerState) (now : Nat) (blobHash : String)
    (body : BlobCommitBody) (hwf : commitBodyWf body = true) (hh : body.hash = blobHash)
    (hgate : ¬((countChunks s blobHash).1 < body.expectedChunkCount ∨
               (countChunks s blobHash).2 < body.expectedSize)) :
    processCommit s now blobHash body =
      (.committed blobHash,
       { s with blobs := s.blobs.map (fun b =>
           if b.hash == blobHash then { b with committedAt := some now } else b) }) := by
  subst hh
  unfold processCommit
  rw [if_neg (by simp [hwf]), if_neg (by simpa using hgate)]

/-- The gate must have passed whenever a commit reported `committed`. -/
lemma gate_of_committed (s : ServerState) (now : Nat) (blobHash : String)
    (body : BlobCommitBody) (hwf : commitBodyWf body = true) (hh : body.hash = blobHash)
    (hc : (processCommit s now blobHash body).1 = CommitResult.committed blobHash) :
    ¬((countChunks s blobHash).1 < body.expectedChunkCount ∨
      (countChunks s blobHash).2 < body.expectedSize) := by
  intro hgate
  rw [processCommit_incomplete s now blobHash body hwf hh hgate] at hc
  exact CommitResult.noConfusion hc

/-- C4: blob commit fails with BLOB_INCOMPLETE exactly when the stored
chunk count is below expectedChunkCount or the stored size sum is below
expectedSize; otherwise it reports committed and marks the blob row
committed at the current time. -/
theorem blob_commit_incomplete_iff (s : ServerState) (now : Nat) (blobHash : String)
    (body : BlobCommitBody) (hwf : commitBodyWf body = true)
    (hh : body.hash = blobHash) :
    ((processCommit s now blobHash body).1 =
        CommitResult.incomplete (countChunks s blobHash).1 (countChunks s blobHash).2 ↔
      (countChunks s blobHash).1 < body.expectedChunkCount ∨
        (countChunks s blobHash).2 < body.expectedSize) ∧
    (¬((countChunks s blobHash).1 < body.expectedChunkCount ∨
        (countChunks s blobHash).2 < body.expectedSize) →
      (processCommit s now blobHash body).1 = CommitResult.committed blobHash ∧
      ∀ b ∈ (processCommit s now blobHash body).2.blobs,
        b.hash = blobHash → b.committedAt = some now) := by
  constructor
  · constructor
    · intro hinc
      by_contra hgate
      rw [processCommit_success s now blobHash body hwf hh hgate] at hinc
      exact CommitResult.noConfusion hinc
    · intro hgate
      rw [processCommit_incomplete s now blobHash body hwf hh hgate]
  · intro hgate
    rw [processCommit_success s now blobHash body hwf hh hgate]
    refine ⟨rfl, ?_⟩
    intro b hb hbh
    obtain ⟨a, _, rfl⟩ := List.mem_map.mp hb
    by_cases hah : (a.hash == blobHash) = true
    · simp [hah]
    · simp only [hah, if_false] at hbh ⊢
      exact absurd (beq_iff_eq.mpr hbh) (by simpa using hah)

/-- Witness for C4: committing `halfBlobState` (1 of 2 declared chunks,
5 of 10 declared bytes) reports BLOB_INCOMPLETE with the current counts. -/
theorem blob_commit_incomplete_iff_witness :
    (processCommit halfBlobState 7 h64 commitBody2).1 =
      CommitResult.incomplete (countChunks halfBlobState h64).1
        (countChunks halfBlobState h64).2 :=
  ((blob_commit_incomplete_iff halfBlobState 7 h64 commitBody2 (by decide) rfl).1).mpr
    (by decide)

/-- C5: a put-chunk whose recomputed digest differs from the declared
chunkHash fails with CHUNK_HASH_MISMATCH and leaves the state unchanged:
no chunk row and no object-store write. -/
theorem putChunk_mismatch_no_write (digest : List Nat → String) (s : ServerState)
    (blobHash : String) (index : Nat) (body : ChunkPutBody)
    (hwf : chunkBodyWf body = true)
    (hne : digest body.cipherText ≠ body.chunkHash) :
    processPutChunk digest s blobHash index body = (PutChunkResult.hashMismatch, s) := by
  unfold processPutChunk
  rw [if_neg (by simp [hwf]), if_pos (by simpa using hne)]

/-- Witness for C5: a concrete mismatching body is rejected with the state
unchanged. -/
theorem putChunk_mismatch_no_write_witness :
    processPutChunk digest0 oneChunkState h64 1 mismatchBody =
      (PutChunkResult.hashMismatch, oneChunkState) :=
  putChunk_mismatch_no_write digest0 oneChunkState h64 1 mismatchBody
    (by decide) (by decide)

/-! Lemmas about the object store and the chunk-row upsert. -/

lemma storeWrite_find? (st : List (String × List Nat)) (k : String) (raw : List Nat) :
    ∃ a, (storeWrite st k raw).find? (fun e => e.1 == k) = some a ∧ a.2 = raw := by
  unfold storeWrite
  split
  case isTrue hany =>
    revert hany
    induction st with
    | nil => intro hany; simp at hany
    | cons e rest ih =>
      intro hany
      by_cases he : (e.1 == k) = true
      · refine ⟨(e.1, raw), ?_, rfl⟩
        rw [List.map_cons, if_pos he]
        exact List.find?_cons_of_pos _ (by simpa using he)
      · have hrest : rest.any (fun e => e.1 == k) = true := by
          simpa [List.any_cons, he] using hany
        obtain ⟨a, hf, ha⟩ := ih hrest
        refine ⟨a, ?_, ha⟩
        rw [List.map_cons, if_neg he, List.find?_cons_of_neg _ (by simpa using he)]
        exact hf
  case isFalse hany =>
    refine ⟨(k, raw), ?_, rfl⟩
    rw [List.find?_append]
    have hnone : st.find? (fun e => e.1 == k) = none := by
      rw [List.find?_eq_none]
      intro x hx hpx
      exact hany (List.any_eq_true.mpr ⟨x, hx, hpx⟩)
    rw [hnone]
    simp [List.find?]

/-- Writing a chunk and reading the same key back returns the bytes. -/
lemma storeRead_storeWrite (st : List (String × List Nat)) (k : String)
    (raw : List Nat) : storeRead (storeWrite st k raw) k = raw := by
  obtain ⟨a, hf, ha⟩ := storeWrite_find? st k raw
  rw [storeRead, hf]
  exact ha

lemma upsertChunk_find? (chunks : List ChunkRow) (blobHash : String) (index : Nat)
    (chunkHash : String) (size : Nat) (key : String) :
    ∃ c, (upsertChunk chunks blobHash index chunkHash size key).find?
        (fun r => r.blobHash == blobHash && r.idx == index) = some c ∧
      c.chunkHash = chunkHash ∧ c.size = size ∧ c.storageKey = key := by
  unfold upsertChunk
  split
  case isTrue hany =>
    revert hany
    induction chunks with
    | nil => intro hany; simp at hany
    | cons e rest ih =>
      intro hany
      by_cases he : (e.blobHash == blobHash && e.idx == index) = true
      · refine ⟨{ e with chunkHash := chunkHash, size := size, storageKey := key },
          ?_, rfl, rfl, rfl⟩
        rw [List.map_cons, if_pos he]
        exact List.find?_cons_of_pos _ (by simpa using he)
      · have hrest : rest.any (fun c => c.blobHash == blobHash && c.idx == index) = true := by
          simpa [List.any_cons, he] using hany
        obtain ⟨c, hf, hc⟩ := ih hrest
        refine ⟨c, ?_, hc⟩
        rw [List.map_cons, if_neg he, List.find?_cons_of_neg _ (by simpa using he)]
        exact hf
  case isFalse hany =>
    refine ⟨{ blobHash := blobHash, idx := index, chunkHash := chunkHash,
              size := size, storageKey := key }, ?_, rfl, rfl, rfl⟩
    rw [List.find?_append]
    have hnone : chunks.find? (fun r => r.blobHash == blobHash && r.idx == index) = none := by
      rw [List.find?_eq_none]
      intro x hx hpx
      exact hany (List.any_eq_true.mpr ⟨x, hx, hpx⟩)
    rw [hnone]
    simp [List.find?]

/-- A valid put-chunk that passes the integrity gate persists. -/
lemma processPutChunk_success (digest : List Nat → String) (s : ServerState)
    (blobHash : String) (index : Nat) (body : ChunkPutBody)
    (hwf : chunkBodyWf body = true)
    (hok : digest body.cipherText = body.chunkHash) :
    processPutChunk digest s blobHash index body =
      (.persisted blobHash index,
       { s with
          chunks := upsertChunk s.chunks blobHash index body.chunkHash body.size
            (storageKeyFor blobHash index),
          store := storeWrite s.store (storageKeyFor blobHash index) body.cipherText }) := by
  unfold processPutChunk
  rw [if_neg (by simp [hwf]), if_neg (by simp [hok])]

/-- C10: an accepted put-chunk records the client-declared size in the
chunk row, never comparing it with the decoded ciphertext's byte length;
the object store receives exactly the decoded bytes.  The commit gate's
sumSize therefore adds up declared sizes. -/
theorem putChunk_stores_declared_size (digest : List Nat → String) (s : ServerState)
    (blobHash : String) (index : Nat) (body : ChunkPutBody)
    (hwf : chunkBodyWf body = true)
    (hok : digest body.cipherText = body.chunkHash) :
    (processPutChunk digest s blobHash index body).1 =
        PutChunkResult.persisted blobHash index ∧
    (∃ c, (processPutChunk digest s blobHash index body).2.chunks.find?
        (fun r => r.blobHash == blobHash && r.idx == index) = some c ∧
      c.size = body.size ∧ c.chunkHash = body.chunkHash) ∧
    storeRead (processPutChunk digest s blobHash index body).2.store
        (storageKeyFor blobHash index) = body.cipherText := by
  rw [processPutChunk_success digest s blobHash index body hwf hok]
  refine ⟨rfl, ?_, storeRead_storeWrite s.store (storageKeyFor blobHash index) body.cipherText⟩
  obtain ⟨c, hf, h1, h2, _⟩ := upsertChunk_find? s.chunks blobHash index body.chunkHash
    body.size (storageKeyFor blobHash index)
  exact ⟨c, hf, h2, h1⟩

/-- Witness for C10: a chunk of 3 bytes declared as size 10 persists, the
commit afterwards passes the gate with expectedSize 10, yet only 3
ciphertext bytes are stored. -/
theorem putChunk_stores_declared_size_witness :
    (processPutChunk digest0 emptyBlobState h64 0 undersizedBody).1 =
        PutChunkResult.persisted h64 0 ∧
    undersizedBody.size = 10 ∧ undersizedBody.cipherText.length = 3 ∧
    (processCommit undersizedAfter 5 h64
        { hash := h64, expectedChunkCount := 1, expectedSize := 10 }).1 =
      CommitResult.committed h64 ∧
    (storeRead undersizedAfter.store (storageKeyFor h64 0)).length = 3 :=
  ⟨(putChunk_stores_declared_size digest0 emptyBlobState h64 0 undersizedBody
      (by decide) (by decide)).1,
   by decide, by decide, by decide, by decide⟩

/-- C6 (amended): once a blob is committed, further put-chunk calls still
succeed and leave the blobs table (hence the committed state) unchanged; a
re-commit with the same payload succeeds and changes nothing except that it
overwrites the blob's committedAt with the re-commit time. -/
theorem committed_blob_stable (digest : List Nat → String) (s : ServerState)
    (now1 now2 : Nat) (blobHash : String) (cbody : BlobCommitBody)
    (hwf : commitBodyWf cbody = true) (hh : cbody.hash = blobHash)
    (hc : (processCommit s now1 blobHash cbody).1 = CommitResult.committed blobHash) :
    (∀ index body,
      (processPutChunk digest (processCommit s now1 blobHash cbody).2
          blobHash index body).2.blobs =
        (processCommit s now1 blobHash cbody).2.blobs ∧
      (chunkBodyWf body = true → digest body.cipherText = body.chunkHash →
        (processPutChunk digest (processCommit s now1 blobHash cbody).2
            blobHash index body).1 = PutChunkResult.persisted blobHash index)) ∧
    (processCommit (processCommit s now1 blobHash cbody).2 now2 blobHash cbody).1 =
        CommitResult.committed blobHash ∧
    (processCommit (processCommit s now1 blobHash cbody).2 now2 blobHash cbody).2.chunks =
        (processCommit s now1 blobHash cbody).2.chunks ∧
    (processCommit (processCommit s now1 blobHash cbody).2 now2 blobHash cbody).2.opLog =
        (processCommit s now1 blobHash cbody).2.opLog ∧
    (processCommit (processCommit s now1 blobHash cbody).2 now2 blobHash cbody).2.cursors =
        (processCommit s now1 blobHash cbody).2.cursors ∧
    (processCommit (processCommit s now1 blobHash cbody).2 now2 blobHash cbody).2.store =
        (processCommit s now1 blobHash cbody).2.store ∧
    ∀ b ∈ (processCommit (processCommit s now1 blobHash cbody).2 now2 blobHash cbody).2.blobs,
      b.hash = blobHash → b.committedAt = some now2 := by
  have hgate := gate_of_committed s now1 blobHash cbody hwf hh hc
  have hchunks : (processCommit s now1 blobHash cbody).2.chunks = s.chunks :=
    (processCommit_frame s now1 blobHash cbody).2.1
  have hcount : countChunks (processCommit s now1 blobHash cbody).2 blobHash =
      countChunks s blobHash := by
    unfold countChunks
    rw [hchunks]
  have hgate2 : ¬((countChunks (processCommit s now1 blobHash cbody).2 blobHash).1 <
        cbody.expectedChunkCount ∨
      (countChunks (processCommit s now1 blobHash cbody).2 blobHash).2 <
        cbody.expectedSize) := by
    rw [hcount]; exact hgate
  have hre := processCommit_success (processCommit s now1 blobHash cbody).2 now2
    blobHash cbody hwf hh hgate2
  refine ⟨?_, ?_, ?_, ?_, ?_, ?_, ?_⟩
  · intro index body
    refine ⟨(processPutChunk_frame digest (processCommit s now1 blobHash cbody).2
        blobHash index body).2.1, ?_⟩
    intro hbwf hbok
    rw [processPutChunk_success digest (processCommit s now1 blobHash cbody).2
      blobHash index body hbwf hbok]
  · rw [hre]
  · rw [hre]
  · rw [hre]
  · rw [hre]
  · rw [hre]
  · rw [hre]
    intro b hb hbh
    obtain ⟨a, _, rfl⟩ := List.mem_map.mp hb
    by_cases hah : (a.hash == blobHash) = true
    · simp [hah]
    · simp only [hah, if_false] at hbh ⊢
      exact absurd (beq_iff_eq.mpr hbh) (by simpa using hah)

/-- Witness for C6: after committing `oneChunkState` at time 1, the
re-commit at time 2 reports committed again. -/
theorem committed_blob_stable_witness :
    (processCommit committedState 2 h64 commitBody1).1 =
      CommitResult.committed h64 :=
  (committed_blob_stable digest0 oneChunkState 1 2 h64 commitBody1
      (by decide) rfl (by decide)).2.1

/-- Counterexample for C6 as stated: a re-commit is not a no-op on the blob
row — committing `oneChunkState` at time 1 and re-committing at time 2
overwrites committedAt, so the blobs table differs after the re-commit. -/
theorem recommit_changes_committedAt :
    (processCommit committedState 2 h64 commitBody1).2.blobs ≠
        committedState.blobs ∧
    (processCommit committedState 2 h64 commitBody1).2.blobs.map
        (fun b => b.committedAt) = [some 2] ∧
    committedState.blobs.map (fun b => b.committedAt) = [some 1] := by
  refine ⟨by decide, by decide, by decide⟩

/-- C9 (amended): the manifest read returns BLOB_NOT_FOUND for an
uncommitted blob, but the chunk read does not consult the owning blob's
committed state: it returns CHUNK_NOT_FOUND exactly when no chunk row
exists for (blobHash, index), and serves the stored bytes whenever the row
exists — also while the blob is uncommitted. -/
theorem getChunk_ignores_committed (s : ServerState) (blobHash : String) (index : Nat) :
    (processGetChunk s blobHash index = ChunkGetResult.notFound ↔
      s.chunks.find? (fun r => r.blobHash == blobHash && r.idx == index) = none) ∧
    (∀ c, s.chunks.find? (fun r => r.blobHash == blobHash && r.idx == index) = some c →
      processGetChunk s blobHash index =
        ChunkGetResult.chunk blobHash index c.chunkHash c.size
          (storeRead s.store c.storageKey)) ∧
    (∀ b, s.blobs.find? (fun r => r.hash == blobHash) = some b →
      b.committedAt = none → processGetBlob s blobHash = ManifestResult.notFound) := by
  refine ⟨?_, ?_, ?_⟩
  · unfold processGetChunk
    cases hf : s.chunks.find? (fun r => r.blobHash == blobHash && r.idx == index) with
    | none => simp
    | some c => simp
  · intro c hf
    unfold processGetChunk
    rw [hf]
  · intro b hf hbc
    unfold processGetBlob
    rw [hf]
    dsimp only
    rw [hbc]

/-- Counterexample for C9 as stated: in `oneChunkState` the blob is
uncommitted, the manifest read correctly returns BLOB_NOT_FOUND, yet the
chunk read serves the chunk bytes instead of returning 404. -/
theorem getChunk_serves_uncommitted :
    processGetChunk oneChunkState h64 0 =
        ChunkGetResult.chunk h64 0 "3" 3 [1, 2, 3] ∧
    processGetChunk oneChunkState h64 0 ≠ ChunkGetResult.notFound ∧
    processGetBlob oneChunkState h64 = ManifestResult.notFound ∧
    oneChunkState.blobs.map (fun b => b.committedAt) = [none] := by
  refine ⟨by decide, by decide, by decide, by decide⟩

/-! Lemmas about the sorted, capped log reads shared by pull and the
realtime backlog. -/

lemma mem_sorted_take (log : List OpRow) (vaultId : String) (since : Nat) (n : Nat)
    (r : OpRow)
    (hr : r ∈ (List.insertionSort seqLE (vaultOpsAfter log vaultId since)).take n) :
    r ∈ log ∧ r.vaultId = vaultId ∧ since < r.seq := by
  have h1 : r ∈ List.insertionSort seqLE (vaultOpsAfter log vaultId since) :=
    List.Sublist.mem hr (List.take_sublist n _)
  have h2 : r ∈ vaultOpsAfter log vaultId since :=
    (List.perm_insertionSort seqLE _).mem_iff.mp h1
  rw [vaultOpsAfter, List.mem_filter] at h2
  obtain ⟨hmem, hp⟩ := h2
  rw [Bool.and_eq_true] at hp
  exact ⟨hmem, beq_iff_eq.mp hp.1, of_decide_eq_true hp.2⟩

lemma sorted_take (log : List OpRow) (vaultId : String) (since : Nat) (n : Nat) :
    ((List.insertionSort seqLE (vaultOpsAfter log vaultId since)).take n).Pairwise seqLE :=
  List.Pairwise.sublist (List.take_sublist n _) (List.sorted_insertionSort seqLE _)

lemma mem_sorted_take_of_le (log : List OpRow) (vaultId : String) (since : Nat) (n : Nat)
    (hlen : (vaultOpsAfter log vaultId since).length ≤ n)
    (r : OpRow) (hr : r ∈ log) (hv : r.vaultId = vaultId) (hs : since < r.seq) :
    r ∈ (List.insertionSort seqLE (vaultOpsAfter log vaultId since)).take n := by
  have hfull : (List.insertionSort seqLE (vaultOpsAfter log vaultId since)).take n =
      List.insertionSort seqLE (vaultOpsAfter log vaultId since) :=
    List.take_of_length_le (by rw [List.length_insertionSort]; exact hlen)
  rw [hfull, (List.perm_insertionSort seqLE _).mem_iff, vaultOpsAfter, List.mem_filter]
  exact ⟨hr, by rw [Bool.and_eq_true]; exact ⟨beq_iff_eq.mpr hv, decide_eq_true hs⟩⟩

/-- C7: the pull response lists exactly this vault's ops with seq strictly
above `since` up to the cap — every returned op qualifies, every
qualifying op is returned whenever at most min(limit, 1000) qualify, and
the page length is the minimum of the cap and the number of qualifying
ops — in ascending seq order, at most min(limit, 1000) of them (at most
200 when no limit is supplied), and its watermark is `since` for an empty
page and the last op's seq otherwise. -/
theorem pull_response_spec (s : ServerState) (vaultId : String) (since : Nat)
    (limitQ : Option Nat) (deviceIdQ : Option String) :
    (∀ r ∈ (processPull s vaultId since limitQ deviceIdQ).1.ops,
        r ∈ s.opLog ∧ r.vaultId = vaultId ∧ since < r.seq) ∧
    ((vaultOpsAfter s.opLog vaultId since).length ≤ min (limitQ.getD 200) 1000 →
      ∀ r ∈ s.opLog, r.vaultId = vaultId → since < r.seq →
        r ∈ (processPull s vaultId since limitQ deviceIdQ).1.ops) ∧
    (processPull s vaultId since limitQ deviceIdQ).1.ops.length =
        min (min (limitQ.getD 200) 1000) (vaultOpsAfter s.opLog vaultId since).length ∧
    (processPull s vaultId since limitQ deviceIdQ).1.ops.Pairwise seqLE ∧
    (processPull s vaultId since limitQ deviceIdQ).1.ops.length ≤
        min (limitQ.getD 200) 1000 ∧
    (limitQ = none → (processPull s vaultId since limitQ deviceIdQ).1.ops.length ≤ 200) ∧
    (processPull s vaultId since limitQ deviceIdQ).1.watermark =
      ((processPull s vaultId since limitQ deviceIdQ).1.ops.getLast?.map
          (fun r => r.seq)).getD since := by
    have hops : (processPull s vaultId since limitQ deviceIdQ).1.ops =
        readOpsSince s vaultId since (min (limitQ.getD 200) 1000) := rfl
    refine ⟨?_, ?_, ?_, ?_, ?_, ?_, ?_⟩
    · intro r hr
      rw [hops] at hr
      exact mem_sorted_take s.opLog vaultId since _ r hr
    · intro hlen r hr hv hs
      rw [hops]
      exact mem_sorted_take_of_le s.opLog vaultId since _ hlen r hr hv hs
    · rw [hops, readOpsSince, List.length_take, List.length_insertionSort]
    · rw [hops]
      exact sorted_take s.opLog vaultId since _
    · rw [hops, readOpsSince, List.length_take]
      exact min_le_left _ _
    · intro hnone
      rw [hops, readOpsSince, List.length_take]
      subst hnone
      simp
    · rw [hops]
      cases hlast : (readOpsSince s vaultId since (min (limitQ.getD 200) 1000)).getLast? with
      | none =>
        have hw : (processPull s vaultId since limitQ deviceIdQ).1.watermark =
            match (readOpsSince s vaultId since (min (limitQ.getD 200) 1000)).getLast? with
            | some r => r.seq
            | none => since := rfl
        rw [hw, hlast]
        rfl
      | some r =>
        have hw : (processPull s vaultId since limitQ deviceIdQ).1.watermark =
            match (readOpsSince s vaultId since (min (limitQ.getD 200) 1000)).getLast? with
            | some r => r.seq
            | none => since := rfl
        rw [hw, hlast]
        rfl

/-- C8: the backlog envelope — the first message a subscriber receives —
carries only this vault's ops with seq strictly above `since`, in
ascending seq order, capped at 500; and whenever at most 500 ops qualify,
every qualifying op of the log is present. -/
theorem backlog_spec (s : ServerState) (vaultId : String) (since : Nat) :
    (∀ e ∈ (realtimeBacklog s vaultId since).events,
        e ∈ s.opLog ∧ e.vaultId = vaultId ∧ since < e.seq) ∧
    (realtimeBacklog s vaultId since).events.Pairwise seqLE ∧
    (realtimeBacklog s vaultId since).events.length ≤ 500 ∧
    ((vaultOpsAfter s.opLog vaultId since).length ≤ 500 →
      ∀ r ∈ s.opLog, r.vaultId = vaultId → since < r.seq →
        r ∈ (realtimeBacklog s vaultId since).events) := by
  refine ⟨?_, ?_, ?_, ?_⟩
  · intro e he
    exact mem_sorted_take s.opLog vaultId since 500 e he
  · exact sorted_take s.opLog vaultId since 500
  · rw [realtimeBacklog]
    dsimp only
    rw [List.length_take]
    exact min_le_left _ _
  · intro hlen r hr hv hs
    exact mem_sorted_take_of_le s.opLog vaultId since 500 hlen r hr hv hs

/-! Lemmas about the two cursor upsert flavours. -/

lemma cursorSeq_cons_pos (c : CursorRow) (rest : List CursorRow) (d v : String)
    (h : (c.deviceId == d && c.vaultId == v) = true) :
    cursorSeq (c :: rest) d v = c.lastAppliedSeq := by
  simp [cursorSeq, List.find?_cons, h]

lemma cursorSeq_cons_neg (c : CursorRow) (rest : List CursorRow) (d v : String)
    (h : ¬((c.deviceId == d && c.vaultId == v) = true)) :
    cursorSeq (c :: rest) d v = cursorSeq rest d v := by
  simp only [cursorSeq, List.find?_cons]
  rw [Bool.eq_false_iff.mpr h]

/-- A row-wise update that keeps the key columns and never decreases the
stored seq cannot decrease any cursor read. -/
lemma cursorSeq_map_le (g : CursorRow → CursorRow)
    (hg : ∀ c, (g c).deviceId = c.deviceId ∧ (g c).vaultId = c.vaultId ∧
      c.lastAppliedSeq ≤ (g c).lastAppliedSeq)
    (cursors : List CursorRow) (d' v' : String) :
    cursorSeq cursors d' v' ≤ cursorSeq (cursors.map g) d' v' := by
  induction cursors with
  | nil => simp [cursorSeq]
  | cons c rest ih =>
    rw [List.map_cons]
    by_cases hp : (c.deviceId == d' && c.vaultId == v') = true
    · have hfp : ((g c).deviceId == d' && (g c).vaultId == v') = true := by
        rw [(hg c).1, (hg c).2.1]; exact hp
      rw [cursorSeq_cons_pos c rest d' v' hp, cursorSeq_cons_pos (g c) _ d' v' hfp]
      exact (hg c).2.2
    · have hfp : ¬(((g c).deviceId == d' && (g c).vaultId == v') = true) := by
        rw [(hg c).1, (hg c).2.1]; exact hp
      rw [cursorSeq_cons_neg c rest d' v' hp, cursorSeq_cons_neg (g c) _ d' v' hfp]
      exact ih

lemma cursorSeq_upsertCursorMax_le (cursors : List CursorRow) (d v : String)
    (seq : Nat) (d' v' : String) :
    cursorSeq cursors d' v' ≤ cursorSeq (upsertCursorMax cursors d v seq) d' v' := by
  unfold upsertCursorMax
  split
  case isTrue hany =>
    refine cursorSeq_map_le _ ?_ cursors d' v'
    intro c
    by_cases hm : (c.deviceId == d && c.vaultId == v) = true <;>
      simp [hm, le_max_left]
  case isFalse hany =>
    rw [cursorSeq, cursorSeq, List.find?_append]
    cases hf : cursors.find? (fun c => c.deviceId == d' && c.vaultId == v') with
    | none => simp
    | some c => simp [hf]

lemma cursorSeq_upsertCursorSet_self (cursors : List CursorRow) (d v : String)
    (seq : Nat) : cursorSeq (upsertCursorSet cursors d v seq) d v = seq := by
  unfold upsertCursorSet
  split
  case isTrue hany =>
    revert hany
    induction cursors with
    | nil => intro hany; simp at hany
    | cons c rest ih =>
      intro hany
      simp only [List.map_cons]
      by_cases hm : (c.deviceId == d && c.vaultId == v) = true
      · rw [if_pos hm, cursorSeq_cons_pos _ _ d v (by simpa using hm)]
      · have hrest : rest.any (fun c => c.deviceId == d && c.vaultId == v) = true := by
          simpa [List.any_cons, hm] using hany
        rw [if_neg hm, cursorSeq_cons_neg c _ d v hm]
        exact ih hrest
  case isFalse hany =>
    rw [cursorSeq, List.find?_append]
    have hnone : cursors.find? (fun c => c.deviceId == d && c.vaultId == v) = none := by
      rw [List.find?_eq_none]
      intro x hx hpx
      exact hany (List.any_eq_true.mpr ⟨x, hx, hpx⟩)
    rw [hnone]
    simp [List.find?]

/-- The running maximum in the push loop never drops below its start. -/
lemma processOps_ack_le (ops : List PushOp) (vaultId : String) (s : ServerState)
    (ack applied : Nat) (missing : List MissingChunk) :
    ack ≤ (processOps vaultId s ack applied missing ops).acknowledgedSeq := by
  induction ops generalizing s ack applied missing with
  | nil => exact le_refl ack
  | cons op rest ih =>
    rw [processOps]
    exact le_trans (le_max_left _ _) (ih _ _ _ _)

/-- C3 (amended): a pull never lowers any stored cursor (its upsert takes
GREATEST with the current value), while a push overwrites the device's
cursor with the response's acknowledgedSeq — a value at least the request's
cursor, but possibly below the previously stored cursor. -/
theorem cursor_update_spec (s : ServerState) (vaultId : String) (since : Nat)
    (limitQ : Option Nat) (deviceIdQ : Option String) (req : PushRequest)
    (d w : String) :
    cursorSeq s.cursors d w ≤
      cursorSeq (processPull s vaultId since limitQ deviceIdQ).2.cursors d w ∧
    cursorSeq (processPush s vaultId req).2.cursors req.deviceId vaultId =
      (processPush s vaultId req).1.acknowledgedSeq ∧
    req.cursor ≤ (processPush s vaultId req).1.acknowledgedSeq := by
  refine ⟨?_, ?_, ?_⟩
  · cases hq : deviceIdQ with
    | none =>
      have hcur : (processPull s vaultId since limitQ none).2.cursors = s.cursors := rfl
      rw [hcur]
    | some dq =>
      have hcur : (processPull s vaultId since limitQ (some dq)).2.cursors =
          upsertCursorMax s.cursors dq vaultId
            (processPull s vaultId since limitQ (some dq)).1.watermark := rfl
      rw [hcur]
      exact cursorSeq_upsertCursorMax_le s.cursors dq vaultId _ d w
  · exact cursorSeq_upsertCursorSet_self _ req.deviceId vaultId _
  · exact processOps_ack_le req.ops vaultId s req.cursor 0 []

/-- Counterexample for C3 as stated: after `twoOpReq` the stored cursor of
(devD, "V") is 2; the stale replay push `staleReplayReq` (same device, same
vault, cursor 0, replaying only the first op) overwrites it down to 1. -/
theorem push_lowers_cursor :
    cursorSeq twoOpState.cursors devD "V" = 2 ∧
    cursorSeq staleReplayState.cursors devD "V" = 1 ∧
    staleReplayState = (processPush twoOpState "V" staleReplayReq).2 := by
  refine ⟨by decide, by decide, rfl⟩

/-! Lemmas about the idempotency-key lookup and the push loop. -/

lemma containsKey_append (log ext : List OpRow) (k : String)
    (h : containsKey log k = true) : containsKey (log ++ ext) k = true := by
  rw [containsKey, List.any_append]
  rw [containsKey] at h
  simp [h]

lemma lookupSeqByKey_append (log ext : List OpRow) (k : String)
    (h : containsKey log k = true) :
    lookupSeqByKey (log ++ ext) k = lookupSeqByKey log k := by
  rw [lookupSeqByKey, lookupSeqByKey, List.find?_append]
  cases hf : log.find? (fun r => r.idempotencyKey == k) with
  | none =>
    rw [List.find?_eq_none] at hf
    obtain ⟨x, hx, hpx⟩ := List.any_eq_true.mp h
    exact absurd hpx (hf x hx)
  | some r => rfl

lemma lookupSeqByKey_append_cons (log tail : List OpRow) (r : OpRow) (k : String)
    (h : ¬(containsKey log k = true)) (hr : r.idempotencyKey = k) :
    lookupSeqByKey (log ++ r :: tail) k = r.seq := by
  rw [lookupSeqByKey, List.find?_append]
  have hnone : log.find? (fun x => x.idempotencyKey == k) = none := by
    rw [List.find?_eq_none]
    intro x hx hpx
    exact h (List.any_eq_true.mpr ⟨x, hx, hpx⟩)
  have hfr : List.find? (fun x => x.idempotencyKey == k) (r :: tail) = some r :=
    List.find?_cons_of_pos _ (by simp [hr])
  rw [hnone, hfr]
  rfl

lemma insertOp_conflict (s : ServerState) (vaultId : String) (op : PushOp)
    (h : containsKey s.opLog op.idempotencyKey = true) :
    insertOpIgnoreConflict s vaultId op = (none, { s with nextSeq := s.nextSeq + 1 }) := by
  rw [insertOpIgnoreConflict, if_pos h]

lemma insertOp_fresh (s : ServerState) (vaultId : String) (op : PushOp)
    (h : ¬(containsKey s.opLog op.idempotencyKey = true)) :
    insertOpIgnoreConflict s vaultId op =
      (some s.nextSeq,
       { s with
          nextSeq := s.nextSeq + 1,
          opLog := s.opLog ++ [newOpRow s.nextSeq vaultId op] }) := by
  rw [insertOpIgnoreConflict, if_neg h]

lemma processOps_cons_conflict (vaultId : String) (s : ServerState) (ack applied : Nat)
    (missing : List MissingChunk) (op : PushOp) (rest : List PushOp)
    (h : containsKey s.opLog op.idempotencyKey = true) :
    processOps vaultId s ack applied missing (op :: rest) =
      processOps vaultId { s with nextSeq := s.nextSeq + 1 }
        (max ack (lookupSeqByKey s.opLog op.idempotencyKey)) applied
        (blobRefMissing { s with nextSeq := s.nextSeq + 1 } op missing) rest := by
  rw [processOps, insertOp_conflict s vaultId op h]
  rfl

lemma processOps_cons_fresh (vaultId : String) (s : ServerState) (ack applied : Nat)
    (missing : List MissingChunk) (op : PushOp) (rest : List PushOp)
    (h : ¬(containsKey s.opLog op.idempotencyKey = true)) :
    processOps vaultId s ack applied missing (op :: rest) =
      processOps vaultId
        { s with nextSeq := s.nextSeq + 1,
                 opLog := s.opLog ++ [newOpRow s.nextSeq vaultId op] }
        (max ack (if (s.nextSeq == 0) = true then
            lookupSeqByKey (s.opLog ++ [newOpRow s.nextSeq vaultId op])
              op.idempotencyKey
          else s.nextSeq))
        (if (s.nextSeq == 0) = true then applied else applied + 1)
        (blobRefMissing
          { s with nextSeq := s.nextSeq + 1,
                   opLog := s.opLog ++ [newOpRow s.nextSeq vaultId op] }
          op missing)
        rest := by
  rw [processOps, insertOp_fresh s vaultId op h]
  rfl

/-- Replaying a batch whose keys are all present leaves the log unchanged,
applies nothing, and acknowledges the maximum of the cursor and the seqs
already assigned to those keys. -/
lemma processOps_replay (ops : List PushOp) (vaultId : String) (s : ServerState)
    (ack applied : Nat) (missing : List MissingChunk)
    (h : ∀ op ∈ ops, containsKey s.opLog op.idempotencyKey = true) :
    (processOps vaultId s ack applied missing ops).state.opLog = s.opLog ∧
    (processOps vaultId s ack applied missing ops).appliedCount = applied ∧
    (processOps vaultId s ack applied missing ops).acknowledgedSeq =
      List.foldl (fun a op => max a (lookupSeqByKey s.opLog op.idempotencyKey))
        ack ops := by
  induction ops generalizing s ack applied missing with
  | nil => exact ⟨rfl, rfl, rfl⟩
  | cons op rest ih =>
    have hop := h op (List.mem_cons_self op rest)
    have hrest : ∀ o ∈ rest, containsKey s.opLog o.idempotencyKey = true :=
      fun o ho => h o (List.mem_cons_of_mem op ho)
    rw [processOps_cons_conflict vaultId s ack applied missing op rest hop]
    have ih' := ih { s with nextSeq := s.nextSeq + 1 }
      (max ack (lookupSeqByKey s.opLog op.idempotencyKey)) applied
      (blobRefMissing { s with nextSeq := s.nextSeq + 1 } op missing) hrest
    refine ⟨ih'.1, ih'.2.1, ?_⟩
    simp only [List.foldl_cons]
    exact ih'.2.2

/-- Running the push loop appends some rows to the log, afterwards every
batch key is present, and the final acknowledgedSeq folds the maximum of
the final log's seq for each key over the request cursor. -/
lemma processOps_run (ops : List PushOp) (vaultId : String) (s : ServerState)
    (ack applied : Nat) (missing : List MissingChunk) :
    ∃ ext : List OpRow,
      (processOps vaultId s ack applied missing ops).state.opLog = s.opLog ++ ext ∧
      (∀ op ∈ ops, containsKey
        (processOps vaultId s ack applied missing ops).state.opLog
        op.idempotencyKey = true) ∧
      (processOps vaultId s ack applied missing ops).acknowledgedSeq =
        List.foldl (fun a op => max a (lookupSeqByKey
          (processOps vaultId s ack applied missing ops).state.opLog
          op.idempotencyKey)) ack ops := by
  induction ops generalizing s ack applied missing with
  | nil => exact ⟨[], by simp [processOps], by simp, rfl⟩
  | cons op rest ih =>
    by_cases hk : containsKey s.opLog op.idempotencyKey = true
    · rw [processOps_cons_conflict vaultId s ack applied missing op rest hk]
      obtain ⟨ext, h1, h2, h3⟩ := ih { s with nextSeq := s.nextSeq + 1 }
        (max ack (lookupSeqByKey s.opLog op.idempotencyKey)) applied
        (blobRefMissing { s with nextSeq := s.nextSeq + 1 } op missing)
      refine ⟨ext, h1, ?_, ?_⟩
      · intro o ho
        rcases List.mem_cons.mp ho with rfl | ho'
        · rw [h1]
          exact containsKey_append _ _ _ hk
        · exact h2 o ho'
      · simp only [List.foldl_cons]
        have hl : lookupSeqByKey
            (processOps vaultId { s with nextSeq := s.nextSeq + 1 }
              (max ack (lookupSeqByKey s.opLog op.idempotencyKey)) applied
              (blobRefMissing { s with nextSeq := s.nextSeq + 1 } op missing)
              rest).state.opLog op.idempotencyKey =
            lookupSeqByKey s.opLog op.idempotencyKey := by
          rw [h1]
          exact lookupSeqByKey_append _ _ _ hk
        rw [hl]
        exact h3
    · rw [processOps_cons_fresh vaultId s ack applied missing op rest hk]
      have hkey : (newOpRow s.nextSeq vaultId op).idempotencyKey =
          op.idempotencyKey := rfl
      have hiflemma : (if (s.nextSeq == 0) = true then
          lookupSeqByKey (s.opLog ++ [newOpRow s.nextSeq vaultId op])
            op.idempotencyKey
          else s.nextSeq) = s.nextSeq := by
        split
        · exact lookupSeqByKey_append_cons s.opLog [] (newOpRow s.nextSeq vaultId op)
            op.idempotencyKey hk hkey
        · rfl
      rw [hiflemma]
      obtain ⟨ext, h1, h2, h3⟩ := ih
        { s with nextSeq := s.nextSeq + 1,
                 opLog := s.opLog ++ [newOpRow s.nextSeq vaultId op] }
        (max ack s.nextSeq)
        (if (s.nextSeq == 0) = true then applied else applied + 1)
        (blobRefMissing
          { s with nextSeq := s.nextSeq + 1,
                   opLog := s.opLog ++ [newOpRow s.nextSeq vaultId op] }
          op missing)
      refine ⟨newOpRow s.nextSeq vaultId op :: ext, ?_, ?_, ?_⟩
      · rw [h1]
        simp
      · intro o ho
        rcases List.mem_cons.mp ho with rfl | ho'
        · rw [h1, containsKey]
          refine List.any_eq_true.mpr ⟨newOpRow s.nextSeq vaultId o, by simp, ?_⟩
          simp [newOpRow]
        · exact h2 o ho'
      · simp only [List.foldl_cons]
        have hl : lookupSeqByKey
            (processOps vaultId
              { s with nextSeq := s.nextSeq + 1,
                       opLog := s.opLog ++ [newOpRow s.nextSeq vaultId op] }
              (max ack s.nextSeq)
              (if (s.nextSeq == 0) = true then applied else applied + 1)
              (blobRefMissing
                { s with nextSeq := s.nextSeq + 1,
                         opLog := s.opLog ++ [newOpRow s.nextSeq vaultId op] }
                op missing)
              rest).state.opLog op.idempotencyKey = s.nextSeq := by
          rw [h1]
          have hshape : ({ s with nextSeq := s.nextSeq + 1, opLog := s.opLog ++ [newOpRow s.nextSeq vaultId op] } : ServerState).opLog ++ ext = s.opLog ++ newOpRow s.nextSeq vaultId op :: ext := by
            simp
          rw [hshape]
          exact lookupSeqByKey_append_cons s.opLog ext _ op.idempotencyKey hk hkey
        rw [hl]
        exact h3

/-- C2: pushing the same batch twice leaves the op log exactly as after the
first push, the replay applies zero ops, and the replay's acknowledgedSeq
is at least the first response's (they are computed by the same fold over
the same log, each duplicate key resolving to its already-assigned seq). -/
theorem push_idempotent (s : ServerState) (vaultId : String) (req : PushRequest) :
    (processPush (processPush s vaultId req).2 vaultId req).2.opLog =
        (processPush s vaultId req).2.opLog ∧
    (processPush (processPush s vaultId req).2 vaultId req).1.appliedCount = 0 ∧
    (processPush s vaultId req).1.acknowledgedSeq ≤
      (processPush (processPush s vaultId req).2 vaultId req).1.acknowledgedSeq := by
  obtain ⟨ext, h1, h2, h3⟩ := processOps_run req.ops vaultId s req.cursor 0 []
  have hkeys : ∀ op ∈ req.ops,
      containsKey (processPush s vaultId req).2.opLog op.idempotencyKey = true := h2
  have hreplay := processOps_replay req.ops vaultId (processPush s vaultId req).2
    req.cursor 0 [] hkeys
  refine ⟨hreplay.1, hreplay.2.1, ?_⟩
  have hack1 : (processPush s vaultId req).1.acknowledgedSeq =
      List.foldl (fun a op => max a (lookupSeqByKey
        (processPush s vaultId req).2.opLog op.idempotencyKey)) req.cursor req.ops := h3
  have hack2 : (processPush (processPush s vaultId req).2 vaultId req).1.acknowledgedSeq =
      List.foldl (fun a op => max a (lookupSeqByKey
        (processPush s vaultId req).2.opLog op.idempotencyKey)) req.cursor req.ops :=
    hreplay.2.2
  rw [hack1, hack2]

/-! Preservation of the log ordering invariant along every handler. -/

lemma LogOrdered_congr (s1 s2 : ServerState) (hlog : s2.opLog = s1.opLog)
    (hseq : s2.nextSeq = s1.nextSeq) (h : LogOrdered s1) : LogOrdered s2 := by
  refine ⟨?_, ?_⟩
  · rw [hlog]
    exact h.1
  · intro r hr
    rw [hlog] at hr
    rw [hseq]
    exact h.2 r hr

lemma processOps_logOrdered (ops : List PushOp) (vaultId : String) (s : ServerState)
    (ack applied : Nat) (missing : List MissingChunk) (h : LogOrdered s) :
    LogOrdered (processOps vaultId s ack applied missing ops).state := by
  induction ops generalizing s ack applied missing with
  | nil => exact h
  | cons op rest ih =>
    by_cases hk : containsKey s.opLog op.idempotencyKey = true
    · rw [processOps_cons_conflict vaultId s ack applied missing op rest hk]
      exact ih _ _ _ _ ⟨h.1, fun r hr => Nat.lt_succ_of_lt (h.2 r hr)⟩
    · rw [processOps_cons_fresh vaultId s ack applied missing op rest hk]
      refine ih _ _ _ _ ⟨?_, ?_⟩
      · refine List.pairwise_append.mpr ⟨h.1, by simp, ?_⟩
        intro a ha b hb
        rw [List.mem_singleton] at hb
        subst hb
        exact h.2 a ha
      · intro r hr
        rcases List.mem_append.mp hr with hr' | hr'
        · exact Nat.lt_succ_of_lt (h.2 r hr')
        · rw [List.mem_singleton] at hr'
          subst hr'
          exact Nat.lt_succ_self s.nextSeq

/-- Every state reachable from a fresh database keeps the op log in
strictly increasing seq order, below the BIGSERIAL counter. -/
lemma reachable_logOrdered (digest : List Nat → String) (s : ServerState)
    (h : Reachable digest s) : LogOrdered s := by
  induction h with
  | refl => exact ⟨List.Pairwise.nil, fun r hr => absurd hr (List.not_mem_nil r)⟩
  | tail _ hstep ih =>
    cases hstep with
    | push vaultId req =>
      exact LogOrdered_congr _ _ rfl rfl
        (processOps_logOrdered req.ops vaultId _ req.cursor 0 [] ih)
    | pull vaultId since limitQ deviceIdQ =>
      exact LogOrdered_congr _ _ (processPull_frame _ vaultId since limitQ deviceIdQ).1
        (processPull_frame _ vaultId since limitQ deviceIdQ).2.2.2.2 ih
    | blobInit body =>
      exact LogOrdered_congr _ _ (processBlobInit_frame _ body).1
        (processBlobInit_frame _ body).2.2.2.2 ih
    | putChunk blobHash index body =>
      exact LogOrdered_congr _ _ (processPutChunk_frame digest _ blobHash index body).1
        (processPutChunk_frame digest _ blobHash index body).2.2.2 ih
    | commit now blobHash body =>
      exact LogOrdered_congr _ _ (processCommit_frame _ now blobHash body).1
        (processCommit_frame _ now blobHash body).2.2.2.2 ih

/-- C1 (amended): on every reachable state, the seq values a pull reads for
a fixed vault are strictly increasing — but they need not be consecutive,
since `op_log.seq` is drawn from one log-wide BIGSERIAL shared by all
vaults. -/
theorem readOps_strictly_increasing (digest : List Nat → String) (s : ServerState)
    (h : Reachable digest s) (vaultId : String) (since limit : Nat) :
    ((readOpsSince s vaultId since limit).map (fun r => r.seq)).Pairwise (· < ·) := by
  have hord := reachable_logOrdered digest s h
  have hfilter : (vaultOpsAfter s.opLog vaultId since).Pairwise
      (fun a b => a.seq < b.seq) := List.Pairwise.filter _ hord.1
  have hsorted : List.Sorted seqLE (vaultOpsAfter s.opLog vaultId since) :=
    hfilter.imp (fun hab => le_of_lt hab)
  rw [readOpsSince, hsorted.insertionSort_eq, List.pairwise_map]
  exact List.Pairwise.sublist (List.take_sublist limit _) hfilter

/-- Witness for C1: the state after one push to vault "A" is reachable and
its pull read has strictly increasing seqs. -/
theorem readOps_strictly_increasing_witness :
    ((readOpsSince onePushState "A" 0 1000).map (fun r => r.seq)).Pairwise (· < ·) :=
  readOps_strictly_increasing digest0 onePushState
    (Relation.ReflTransGen.single (Step.push initState "A" onePushReq)) "A" 0 1000

/-- Counterexample for C1 as stated: after four single-op pushes
alternating between vaults "B" and "A", reading vault "A" from since = 0
yields seqs [2, 4] — strictly increasing but not consecutive (vault "B"
holds seqs [1, 3] of the shared BIGSERIAL). -/
theorem interleaved_seqs_not_consecutive :
    (readOpsSince interleavedState "A" 0 1000).map (fun r => r.seq) = [2, 4] ∧
    ¬ List.Chain' (fun a b => b = a + 1)
        ((readOpsSince interleavedState "A" 0 1000).map (fun r => r.seq)) ∧
    (readOpsSince interleavedState "B" 0 1000).map (fun r => r.seq) = [1, 3] := by
  have h24 : (readOpsSince interleavedState "A" 0 1000).map (fun r => r.seq) = [2, 4] := by
    decide
  refine ⟨h24, ?_, by decide⟩
  rw [h24]
  intro hch
  have h43 : (4 : Nat) = 2 + 1 := (List.chain'_cons.mp hch).1
  exact absurd h43 (by decide)

end Obsync
